import Mathlib

/-!
Verification of the BenchmarkLangAcq repository
(`scripts/prob_utils/probability_extractors.py` and
`scripts/utils/probe_babyberta.py`) against its natural-language
specification.

The Python code is shallowly embedded: filesystem paths become lists of
path components with abstract `is_file` / `is_dir` predicates, pandas
columns become Lean lists, tensors produced by the opaque pretrained
models become abstract functions into `ℚ`, and Python exceptions become
`Except String` results.
-/

set_option maxHeartbeats 1000000

/-- Filesystem paths, as lists of components (`pathlib.Path`). -/
abbrev FsPath := List String

/-- Embeds `Path.parent`: drop the last component. -/
def parentDir (p : FsPath) : FsPath := p.dropLast

/-- Attributes set by `ProbExtractor.__init__`
(`probability_extractors.py`, lines 13-25).  The opaque fairseq model and
task objects are not represented; `loaded` records whether `load_model`
ran. -/
structure ExtractorState where
  model_path : FsPath
  dict_path : FsPath
  out_path : FsPath
  batch_size : ℕ
  pooling : String
  loaded : Bool
  deriving DecidableEq, Repr

/-- Tests whether an embedded Python call raised. -/
def isError : Except ε α → Bool
  | .ok _ => false
  | .error _ => true

/-- Result of an embedded Python call that did not raise, with a default
for the raising case. -/
def okD (d : α) : Except ε α → α
  | .ok a => a
  | .error _ => d

/-- Embeds `ProbExtractor.__init__` (`probability_extractors.py`, lines
13-33): set the attributes, deriving `dict_path` as
`model_path.parent / 'data-bin'` when it is `None`, then raise
`ValueError` if `model_path` is not a file or the (possibly derived)
`dict_path` is not a directory.  `is_file` / `is_dir` abstract the
filesystem; the final `self.load_model()` call is external fairseq
loading and, on success, leaves `loaded = True`. -/
def probExtractorInit (is_file : FsPath → Bool) (is_dir : FsPath → Bool)
    (model_path : FsPath) (dict_path : Option FsPath) (out_path : FsPath)
    (batch_size : ℕ) (pooling : String) : Except String ExtractorState :=
  let dp : FsPath :=
    match dict_path with
    | none => parentDir model_path ++ ["data-bin"]
    | some d => d
  if is_file model_path = false then .error "ValueError: model_path not found."
  else if is_dir dp = false then .error "ValueError: dict_path not found."
  else .ok ⟨model_path, dp, out_path, batch_size, pooling, true⟩

/-- Embeds `ProbExtractor.write_probabilities` (`probability_extractors.py`,
lines 41-46) as the list of lines written to the output file: one line
`f'\x7bfilename\x7d \x7bprob\x7d\n'` per `zip(seq_names, probabilities)`
pair. -/
def write_probabilities (seq_names : List String) (probabilities : List ℚ) :
    List String :=
  (seq_names.zip probabilities).map (fun p => p.1 ++ " " ++ toString p.2 ++ "\n")

/-- The three preprocessing flags of `TextLstmProbExtractor`. -/
structure LstmFlags where
  remove_word_spaces : Bool
  bpe_encode : Bool
  bos_eos : Bool
  deriving DecidableEq, Repr

/-- Embeds `TextLstmProbExtractor.preprocessing` (`probability_extractors.py`,
lines 62-69).  `bpeTok` abstracts the external
`BertTokenizer.tokenize`; `' '.join` is `String.intercalate " "`. -/
def preprocessing (fl : LstmFlags) (bpeTok : String → List String)
    (ex : String) : String :=
  let e1 := if fl.remove_word_spaces then ex.replace " <SEP> " " " else ex
  let e2 := if fl.bpe_encode then String.intercalate " " (bpeTok e1) else e1
  if fl.bos_eos then "<BOS> " ++ e2 ++ " <EOS>" else e2

/-- Embeds the `get_example_input` property (`probability_extractors.py`,
lines 148-152): raise `ValueError` when `example_input` is still `None`. -/
def get_example_input (example_input : Option String) : Except String String :=
  match example_input with
  | none => .error "ValueError: You should run the extract_all method before asking for an example."
  | some e => .ok e

lemma zip_map_eq_range_map (h : α → β → γ) (da : α) (db : β) :
    ∀ (as : List α) (bs : List β),
      (as.zip bs).map (fun p => h p.1 p.2) =
        (List.range (min as.length bs.length)).map
          (fun i => h (as.getD i da) (bs.getD i db))
  | [], _ => by simp
  | _ :: _, [] => by simp
  | a :: as, b :: bs => by
    have ih := zip_map_eq_range_map h da db as bs
    simp only [List.zip_cons_cons, List.map_cons, List.length_cons,
      Nat.succ_min_succ, List.range_succ_eq_map, List.map_map]
    refine congrArg (h a b :: ·) ?_
    rw [ih]
    exact List.map_congr_left (fun i _ => by simp)

/-- C7: every line written by `write_probabilities` is exactly the i-th
sequence name, one space, the i-th probability and a newline, with names
and probabilities paired positionally. -/
theorem C7_write_probabilities_line_format (seq_names : List String)
    (probabilities : List ℚ) :
    write_probabilities seq_names probabilities =
      (List.range (min seq_names.length probabilities.length)).map
        (fun i => seq_names.getD i "" ++ " " ++ toString (probabilities.getD i 0) ++ "\n") := by
  unfold write_probabilities
  exact zip_map_eq_range_map (fun n p => n ++ " " ++ toString p ++ "\n") "" 0
    seq_names probabilities

/-- C9: with all three flags off, `preprocessing` is the identity; with
only `bos_eos` on, it brackets the string with `"<BOS> "` and `" <EOS>"`. -/
theorem C9_preprocessing_flag_cases (bpeTok : String → List String) (s : String) :
    preprocessing ⟨false, false, false⟩ bpeTok s = s ∧
    preprocessing ⟨false, false, true⟩ bpeTok s = "<BOS> " ++ s ++ " <EOS>" := by
  constructor <;> rfl

/-- C10: called with `dict_path = None`, the constructor derives
`dict_path = model_path.parent / 'data-bin'`, stores that path, and runs
its directory-existence check (and the corresponding `ValueError`) on the
derived path. -/
theorem C10_init_none_dict_path (is_file is_dir : FsPath → Bool)
    (model_path out_path : FsPath) (batch_size : ℕ) (pooling : String) :
    probExtractorInit is_file is_dir model_path none out_path batch_size pooling =
      (if is_file model_path = false then
        Except.error "ValueError: model_path not found."
      else if is_dir (parentDir model_path ++ ["data-bin"]) = false then
        Except.error "ValueError: dict_path not found."
      else Except.ok ⟨model_path, parentDir model_path ++ ["data-bin"],
        out_path, batch_size, pooling, true⟩) := rfl

/-- Length that `torch.nn.utils.rnn.pad_sequence` pads the batch to: the
maximum tokenized length over the batch. -/
def maxLen (tss : List (List ℕ)) : ℕ := (tss.map List.length).foldr max 0

/-- One padded row of `sequences_inputs`: the row's tokens followed by
`padding_value = pad_idx` up to the batch maximum length `P`. -/
def padRow (pad P : ℕ) (ts : List ℕ) : List ℕ :=
  ts ++ List.replicate (P - ts.length) pad

/-- Embeds the inner accumulation loop of `extract_batch`
(`probability_extractors.py`, lines 116-122): walk the positions of
`sequences_inputs[j][1:]`, add `f i` for each, and `break` right after the
position `i` with `i == input_lengths[j] - 2` (an `int` comparison, hence
the `ℤ`-valued `stop`). -/
def probaLoop (f : ℕ → ℚ) (stop : ℤ) : List ℕ → ℚ
  | [] => 0
  | i :: rest => f i + (if (i : ℤ) = stop then 0 else probaLoop f stop rest)

/-- Embeds the per-row body of `extract_batch` (`probability_extractors.py`,
lines 114-125) for the row with tokens `ts` inside a batch padded to
length `P`.  `M row i v` abstracts `output_ts[j, i, v].log()`, i.e. the
log of the softmax-normalised output of the opaque fairseq model, run on
the padded row `row` (the LSTM language model processes each batch row
independently, so the row's output is a function of the row).  The final
division embeds `proba /= input_lengths[j] - 1` (Python `int`
subtraction). -/
def rowScore (M : List ℕ → ℕ → ℕ → ℚ) (pad P : ℕ) (pooling : String)
    (ts : List ℕ) : ℚ :=
  let row := padRow pad P ts
  let proba := probaLoop (fun i => M row i (row.getD (i + 1) pad))
    ((ts.length : ℤ) - 2) (List.range (P - 1))
  if pooling = "mean" then proba / (((ts.length : ℤ) - 1 : ℤ) : ℚ) else proba

/-- Embeds `TextLstmProbExtractor.extract_batch` (`probability_extractors.py`,
lines 89-126): raise `ValueError` when the model is not loaded, otherwise
tokenize every sequence with `tok` (abstracting
`source_dictionary.encode_line("<s> " + sequence, append_eos=True)`), pad
the batch to its maximum length and score each row. -/
def extract_batch (loaded : Bool) (tok : String → List ℕ) (pad : ℕ)
    (M : List ℕ → ℕ → ℕ → ℚ) (pooling : String) (batch : List String) :
    Except String (List ℚ) :=
  if loaded = false then
    .error "ValueError: You should load the model before extracting the probabilities."
  else
    let tss := batch.map tok
    .ok (tss.map (rowScore M pad (maxLen tss) pooling))

lemma probaLoop_append (f : ℕ → ℚ) (stop : ℤ) (s : ℕ) (hs : (s : ℤ) = stop) :
    ∀ l1 l2 : List ℕ, (∀ a ∈ l1, (a : ℤ) ≠ stop) →
      probaLoop f stop (l1 ++ s :: l2) = (l1.map f).sum + f s
  | [], l2, _ => by simp [probaLoop, hs]
  | a :: l1, l2, h => by
    have ha : (a : ℤ) ≠ stop := h a (by simp)
    have ih := probaLoop_append f stop s hs l1 l2 (fun x hx => h x (by simp [hx]))
    rw [List.cons_append]
    show f a + (if (a : ℤ) = stop then 0 else probaLoop f stop (l1 ++ s :: l2)) = _
    rw [if_neg ha, ih, List.map_cons, List.sum_cons, add_assoc]

lemma probaLoop_range (f : ℕ → ℚ) (s P : ℕ) (hsP : s < P) :
    probaLoop f (s : ℤ) (List.range P) = ((List.range (s + 1)).map f).sum := by
  obtain ⟨k, hk⟩ : ∃ k, P = (s + 1) + k := ⟨P - (s + 1), by omega⟩
  subst hk
  rw [List.range_add, List.range_succ, List.append_assoc, List.singleton_append]
  rw [probaLoop_append f (s : ℤ) s rfl (List.range s)
    ((List.range k).map fun x => s + 1 + x)
    (fun a ha => by
      have : a < s := List.mem_range.mp ha
      omega)]
  simp [List.sum_append]

lemma getD_padRow (pad P : ℕ) (ts : List ℕ) (k : ℕ) (hk : k < ts.length)
    (d : ℕ) : (padRow pad P ts).getD k d = ts.getD k d := by
  unfold padRow
  rw [List.getD_eq_getElem?_getD, List.getD_eq_getElem?_getD,
    List.getElem?_append, if_pos hk]

/-- Claim-side score of a single row: the sum of the log-softmax
probabilities that the model, run on the padded row, assigns to the
sequence's own tokens at positions `1 .. L - 1` (`L` the tokenized
length), divided by `L - 1` when pooling is `'mean'`. -/
def rowScoreSpec (M : List ℕ → ℕ → ℕ → ℚ) (pad P : ℕ) (pooling : String)
    (ts : List ℕ) : ℚ :=
  let S := ((List.range (ts.length - 1)).map
    (fun t => M (padRow pad P ts) t (ts.getD (t + 1) 0))).sum
  if pooling = "mean" then S / (((ts.length : ℤ) - 1 : ℤ) : ℚ) else S

lemma rowScore_eq_spec (M : List ℕ → ℕ → ℕ → ℚ) (pad P : ℕ)
    (pooling : String) (ts : List ℕ) (hL : 2 ≤ ts.length)
    (hP : ts.length ≤ P) :
    rowScore M pad P pooling ts = rowScoreSpec M pad P pooling ts := by
  have hstop : ((ts.length : ℤ) - 2) = ((ts.length - 2 : ℕ) : ℤ) := by omega
  have hrange : ts.length - 2 < P - 1 := by omega
  have hidx : ts.length - 2 + 1 = ts.length - 1 := by omega
  have hkey : probaLoop
      (fun i => M (padRow pad P ts) i ((padRow pad P ts).getD (i + 1) pad))
      ((ts.length : ℤ) - 2) (List.range (P - 1)) =
      ((List.range (ts.length - 1)).map
        (fun t => M (padRow pad P ts) t (ts.getD (t + 1) 0))).sum := by
    rw [hstop, probaLoop_range _ _ _ hrange, hidx]
    refine congrArg List.sum (List.map_congr_left (fun i hi => ?_))
    have hi' : i < ts.length - 1 := List.mem_range.mp hi
    have h1 : i + 1 < ts.length := by omega
    rw [getD_padRow pad P ts (i + 1) h1 pad,
      List.getD_eq_getElem ts pad h1, List.getD_eq_getElem ts 0 h1]
  simp only [rowScore, rowScoreSpec, hkey]

/-- C3: on a loaded model, `extract_batch` returns one scalar per
sequence: the sum of the log-softmax probabilities of the sequence's own
tokens at positions 1 through tokenized-length minus 1 (padding positions
beyond the sequence's own length contribute nothing), divided by
(tokenized length minus 1) exactly when pooling is `'mean'`. -/
theorem C3_extract_batch_row_scores (tok : String → List ℕ) (pad : ℕ)
    (M : List ℕ → ℕ → ℕ → ℚ) (pooling : String) (batch : List String)
    (htok : ∀ s ∈ batch, 2 ≤ (tok s).length) :
    extract_batch true tok pad M pooling batch =
      Except.ok ((batch.map tok).map
        (rowScoreSpec M pad (maxLen (batch.map tok)) pooling)) := by
  unfold extract_batch
  simp only [Bool.true_eq_false, if_false, Except.ok.injEq]
  refine List.map_congr_left (fun ts hts => ?_)
  obtain ⟨s, hs, rfl⟩ := List.mem_map.mp hts
  refine rowScore_eq_spec M pad _ pooling (tok s) (htok s hs) ?_
  have : (tok s).length ∈ (batch.map tok).map List.length := by
    simp only [List.map_map]
    exact List.mem_map.mpr ⟨s, hs, rfl⟩
  exact List.le_max_of_le (l := (batch.map tok).map List.length) this le_rfl

/-- Embeds `n_batches` (`probability_extractors.py`, lines 134-136):
`len(seq_names) // batch_size`, plus one when the division leaves a
remainder. -/
def nBatches (n b : ℕ) : ℕ := n / b + (if n % b ≠ 0 then 1 else 0)

/-- Embeds the batch slices taken by `extract_all`
(`probability_extractors.py`, line 141):
`transcriptions[i*batch_size : min(len(seq_names), (i+1)*batch_size)]`
for `i in range(n_batches)`. -/
def codeBatches (ts : List α) (n b : ℕ) : List (List α) :=
  (List.range (nBatches n b)).map
    (fun i => (ts.take (min n ((i + 1) * b))).drop (i * b))

/-- Runs an embedded raising call on each element in order, propagating
the first raise (the `for` loop of `extract_all`). -/
def mapExcept (f : α → Except ε β) : List α → Except ε (List β)
  | [] => .ok []
  | a :: as =>
    match f a with
    | .error e => .error e
    | .ok b =>
      match mapExcept f as with
      | .error e => .error e
      | .ok bs => .ok (b :: bs)

/-- Embeds `TextLstmProbExtractor.extract_all` (`probability_extractors.py`,
lines 128-146): preprocess the transcriptions, fail with `IndexError` on
`transcriptions[0]` when they are empty, fail with `ZeroDivisionError` on
`len(seq_names) // batch_size` when `batch_size` is zero, then score the
batch slices in order, extending one probability list, and return the
unchanged `seq_names` with it. -/
def extract_all (loaded : Bool) (tok : String → List ℕ) (pad : ℕ)
    (M : List ℕ → ℕ → ℕ → ℚ) (pooling : String) (fl : LstmFlags)
    (bpeTok : String → List String) (batch_size : ℕ)
    (seq_names transcriptions : List String) :
    Except String (List String × List ℚ) :=
  let ts := transcriptions.map (preprocessing fl bpeTok)
  if ts.isEmpty then .error "IndexError: list index out of range"
  else if batch_size = 0 then
    .error "ZeroDivisionError: integer division or modulo by zero"
  else
    match mapExcept (extract_batch loaded tok pad M pooling)
        (codeBatches ts seq_names.length batch_size) with
    | .error e => .error e
    | .ok pbs => .ok (seq_names, pbs.flatten)

lemma nBatches_step (n b : ℕ) (hb : 0 < b) (hn : 0 < n) :
    nBatches n b = nBatches (n - b) b + 1 := by
  unfold nBatches
  rcases lt_or_le n b with h | h
  · have h0 : n - b = 0 := by omega
    rw [h0, Nat.div_eq_of_lt h, Nat.mod_eq_of_lt h]
    simp only [Nat.zero_div, Nat.zero_mod]
    split_ifs <;> omega
  · obtain ⟨m, rfl⟩ : ∃ m, n = m + b := ⟨n - b, by omega⟩
    rw [Nat.add_sub_cancel, Nat.add_div_right _ hb, Nat.add_mod_right]
    split_ifs <;> omega

lemma nBatches_zero (b : ℕ) : nBatches 0 b = 0 := by
  unfold nBatches
  simp

lemma nBatches_eq_ceil (b : ℕ) (hb : 0 < b) :
    ∀ N n, n ≤ N → nBatches n b = (n + b - 1) / b := by
  intro N
  induction N with
  | zero =>
    intro n hn
    have hn0 : n = 0 := by omega
    subst hn0
    rw [nBatches_zero, Nat.div_eq_of_lt (by omega)]
  | succ N ih =>
    intro n hn
    rcases Nat.eq_zero_or_pos n with rfl | hpos
    · rw [nBatches_zero, Nat.div_eq_of_lt (by omega)]
    · rw [nBatches_step n b hb hpos]
      have h3 : n + b - 1 = (n - 1) + b := by omega
      rw [h3, Nat.add_div_right _ hb]
      rcases lt_or_le n b with h | h
      · have h1 : n - b = 0 := by omega
        rw [h1, nBatches_zero, Nat.div_eq_of_lt (by omega : n - 1 < b)]
      · rw [ih (n - b) (by omega)]
        have h2 : n - b + b - 1 = n - 1 := by omega
        rw [h2]

lemma codeBatches_eq_chunks (ts : List α) (b : ℕ) :
    codeBatches ts ts.length b =
      (List.range (nBatches ts.length b)).map
        (fun i => (ts.drop (i * b)).take b) := by
  unfold codeBatches
  refine List.map_congr_left (fun i _ => ?_)
  rw [List.drop_take]
  have hmin : min ts.length ((i + 1) * b) - i * b =
      min b ((ts.drop (i * b)).length) := by
    rw [List.length_drop]
    have hib : (i + 1) * b = i * b + b := by ring
    rw [hib, Nat.min_def, Nat.min_def]
    split_ifs <;> omega
  rw [hmin, List.take_eq_take, min_assoc, min_self]

lemma chunks_flatten (b : ℕ) (hb : 0 < b) :
    ∀ N (ts : List α), ts.length ≤ N →
      ((List.range (nBatches ts.length b)).map
        (fun i => (ts.drop (i * b)).take b)).flatten = ts := by
  intro N
  induction N with
  | zero =>
    intro ts h
    have h0 : ts = [] := List.eq_nil_of_length_eq_zero (by omega)
    subst h0
    simp [nBatches_zero]
  | succ N ih =>
    intro ts h
    rcases List.eq_nil_or_concat ts with rfl | _
    · simp [nBatches_zero]
    case inr hne =>
      have hpos : 0 < ts.length := by
        obtain ⟨l, a, rfl⟩ := hne
        simp
      have hstep : nBatches ts.length b = nBatches (ts.drop b).length b + 1 := by
        rw [List.length_drop]
        exact nBatches_step ts.length b hb hpos
      rw [hstep, List.range_succ_eq_map, List.map_cons, List.flatten_cons,
        Nat.zero_mul, List.drop_zero, List.map_map]
      have hmapeq : (List.range (nBatches (ts.drop b).length b)).map
          ((fun i => (ts.drop (i * b)).take b) ∘ Nat.succ) =
          (List.range (nBatches (ts.drop b).length b)).map
          (fun i => ((ts.drop b).drop (i * b)).take b) := by
        refine List.map_congr_left (fun i _ => ?_)
        simp only [Function.comp_apply]
        rw [List.drop_drop]
        have hh : Nat.succ i * b = b + i * b := by
          rw [Nat.succ_mul, Nat.add_comm]
        rw [hh]
      rw [hmapeq, ih (ts.drop b) (by rw [List.length_drop]; omega)]
      exact List.take_append_drop b ts

lemma mapExcept_ok (f : α → Except ε β) (g : α → β) :
    ∀ l : List α, (∀ a ∈ l, f a = .ok (g a)) → mapExcept f l = .ok (l.map g)
  | [], _ => rfl
  | a :: l, h => by
    have ha := h a (by simp)
    have ih := mapExcept_ok f g l (fun x hx => h x (by simp [hx]))
    simp only [mapExcept, ha, ih, List.map_cons]

lemma extract_batch_loaded (tok : String → List ℕ) (pad : ℕ)
    (M : List ℕ → ℕ → ℕ → ℚ) (pooling : String) (batch : List String) :
    extract_batch true tok pad M pooling batch =
      .ok ((batch.map tok).map
        (rowScore M pad (maxLen (batch.map tok)) pooling)) := rfl

lemma extract_all_ok_shape (tok : String → List ℕ) (pad : ℕ)
    (M : List ℕ → ℕ → ℕ → ℚ) (pooling : String) (fl : LstmFlags)
    (bpeTok : String → List String) (b : ℕ)
    (seq_names transcriptions : List String)
    (hne : transcriptions ≠ []) (hb : b ≠ 0) :
    extract_all true tok pad M pooling fl bpeTok b seq_names transcriptions =
      .ok (seq_names,
        ((codeBatches (transcriptions.map (preprocessing fl bpeTok))
            seq_names.length b).map
          (fun batch => (batch.map tok).map
            (rowScore M pad (maxLen (batch.map tok)) pooling))).flatten) := by
  have h1 : (transcriptions.map (preprocessing fl bpeTok)).isEmpty = false := by
    cases transcriptions with
    | nil => exact absurd rfl hne
    | cons a l => rfl
  simp only [extract_all, h1, Bool.false_eq_true, if_false, hb, ite_false]
  rw [mapExcept_ok (extract_batch true tok pad M pooling)
    (fun batch => (batch.map tok).map
      (rowScore M pad (maxLen (batch.map tok)) pooling))
    _ (fun batch _ => extract_batch_loaded tok pad M pooling batch)]

lemma flatten_map_length_eq (g : List α → List β)
    (hg : ∀ l, (g l).length = l.length) (L : List (List α)) :
    ((L.map g).flatten).length = L.flatten.length := by
  rw [List.length_flatten, List.length_flatten, List.map_map]
  congr 1
  exact List.map_congr_left (fun l _ => hg l)

lemma codeBatches_flatten (ts : List α) (b : ℕ) (hb : b ≠ 0) :
    (codeBatches ts ts.length b).flatten = ts := by
  rw [codeBatches_eq_chunks]
  exact chunks_flatten b (Nat.pos_of_ne_zero hb) ts.length ts le_rfl

/-- C2, as stated, is false: on an input whose columns are empty the code
raises `IndexError` at `transcriptions[0]` before writing anything, so no
output file with 0 lines is produced. -/
theorem C2_cex_empty_input_raises :
    isError (extract_all true (fun _ => [0, 1]) 0 (fun _ _ _ => 0) "mean"
      ⟨false, false, false⟩ (fun _ => []) 2 ([] : List String) []) = true := rfl

/-- C2 amended: for equal-length columns of length at least 1, a nonzero
batch size and a loaded model, `extract_all` succeeds and
`write_probabilities` on its result writes exactly one line per input
sequence. -/
theorem C2_extract_write_line_count (tok : String → List ℕ) (pad : ℕ)
    (M : List ℕ → ℕ → ℕ → ℚ) (pooling : String) (fl : LstmFlags)
    (bpeTok : String → List String) (b : ℕ)
    (seq_names transcriptions : List String)
    (hlen : seq_names.length = transcriptions.length)
    (hne : transcriptions ≠ []) (hb : b ≠ 0) :
    isError (extract_all true tok pad M pooling fl bpeTok b
      seq_names transcriptions) = false ∧
    (write_probabilities
      (okD ([], []) (extract_all true tok pad M pooling fl bpeTok b
        seq_names transcriptions)).1
      (okD ([], []) (extract_all true tok pad M pooling fl bpeTok b
        seq_names transcriptions)).2).length = transcriptions.length := by
  rw [extract_all_ok_shape tok pad M pooling fl bpeTok b seq_names
    transcriptions hne hb]
  refine ⟨rfl, ?_⟩
  simp only [okD]
  unfold write_probabilities
  rw [List.length_map, List.length_zip]
  have hts : (transcriptions.map (preprocessing fl bpeTok)).length =
      transcriptions.length := List.length_map _ _
  have hn : seq_names.length =
      (transcriptions.map (preprocessing fl bpeTok)).length := by
    rw [hts]; exact hlen
  rw [flatten_map_length_eq _ (fun l => by rw [List.length_map, List.length_map])]
  rw [hn, codeBatches_flatten _ b hb, hts, min_self]

/-- C2 amended, at a concrete input: three sequences, batch size two. -/
theorem C2_extract_write_line_count_witness :
    isError (extract_all true (fun _ => [0, 1, 2]) 0 (fun _ _ _ => 0) "sum"
      ⟨false, false, false⟩ (fun _ => []) 2
      ["a", "b", "c"] ["x", "y", "z"]) = false ∧
    (write_probabilities
      (okD ([], []) (extract_all true (fun _ => [0, 1, 2]) 0 (fun _ _ _ => 0)
        "sum" ⟨false, false, false⟩ (fun _ => []) 2
        ["a", "b", "c"] ["x", "y", "z"])).1
      (okD ([], []) (extract_all true (fun _ => [0, 1, 2]) 0 (fun _ _ _ => 0)
        "sum" ⟨false, false, false⟩ (fun _ => []) 2
        ["a", "b", "c"] ["x", "y", "z"])).2).length =
      (["x", "y", "z"] : List String).length :=
  C2_extract_write_line_count (fun _ => [0, 1, 2]) 0 (fun _ _ _ => 0) "sum"
    ⟨false, false, false⟩ (fun _ => []) 2 ["a", "b", "c"] ["x", "y", "z"]
    rfl (by simp) (by decide)

lemma length_le_maxLen (tss : List (List ℕ)) (ts : List ℕ) (h : ts ∈ tss) :
    ts.length ≤ maxLen tss :=
  List.le_max_of_le (l := tss.map List.length)
    (List.mem_map_of_mem List.length h) le_rfl

/-- States that the opaque language model is causal: its output at
position `i` depends only on the input tokens at positions `0 .. i`.
This holds of the autoregressive LSTM language model the code loads, and
is what makes the per-row score independent of how far the row was
padded inside its batch. -/
def CausalModel (M : List ℕ → ℕ → ℕ → ℚ) : Prop :=
  ∀ r r' : List ℕ, ∀ i v : ℕ, r.take (i + 1) = r'.take (i + 1) → M r i v = M r' i v

/-- Claim-side score of one preprocessed sequence, computed from the
sequence's own (unpadded) tokens only: summed log-softmax probabilities
of tokens 1 through length - 1, divided by length - 1 under `'mean'`
pooling. -/
def seqScore (M : List ℕ → ℕ → ℕ → ℚ) (pooling : String) (ts : List ℕ) : ℚ :=
  let S := ((List.range (ts.length - 1)).map
    (fun t => M ts t (ts.getD (t + 1) 0))).sum
  if pooling = "mean" then S / (((ts.length : ℤ) - 1 : ℤ) : ℚ) else S

lemma rowScoreSpec_eq_seqScore (M : List ℕ → ℕ → ℕ → ℚ) (pad P : ℕ)
    (pooling : String) (ts : List ℕ) (hM : CausalModel M) :
    rowScoreSpec M pad P pooling ts = seqScore M pooling ts := by
  have hsum : ((List.range (ts.length - 1)).map
      (fun t => M (padRow pad P ts) t (ts.getD (t + 1) 0))).sum =
      ((List.range (ts.length - 1)).map
      (fun t => M ts t (ts.getD (t + 1) 0))).sum := by
    refine congrArg List.sum (List.map_congr_left (fun t ht => ?_))
    have ht' : t < ts.length - 1 := List.mem_range.mp ht
    refine hM (padRow pad P ts) ts t (ts.getD (t + 1) 0) ?_
    rw [padRow]
    exact List.take_append_of_le_length (by omega)
  simp only [rowScoreSpec, seqScore, hsum]

lemma batch_scores_seqScore (tok : String → List ℕ) (pad : ℕ)
    (M : List ℕ → ℕ → ℕ → ℚ) (pooling : String) (batch : List String)
    (hM : CausalModel M) (htok : ∀ s, 2 ≤ (tok s).length) :
    (batch.map tok).map (rowScore M pad (maxLen (batch.map tok)) pooling) =
      batch.map (fun s => seqScore M pooling (tok s)) := by
  rw [List.map_map]
  refine List.map_congr_left (fun s hs => ?_)
  simp only [Function.comp_apply]
  rw [rowScore_eq_spec M pad _ pooling (tok s) (htok s)
    (length_le_maxLen (batch.map tok) (tok s) (List.mem_map_of_mem tok hs)),
    rowScoreSpec_eq_seqScore M pad _ pooling (tok s) hM]

/-- C6, as stated, is false at n = 0: with empty columns and batch size
1 the code raises `IndexError` at `transcriptions[0]` instead of
processing ceil(0/1) = 0 batches and returning an empty result. -/
theorem C6_cex_empty_input_raises :
    isError (extract_all true (fun _ => [0, 1]) 0 (fun _ _ _ => 0) "mean"
      ⟨false, false, false⟩ (fun _ => []) 1 ([] : List String) []) = true := rfl

/-- C6 amended: for equal-length columns of length n at least 1, every
batch size b > 0 and a loaded causal model, `extract_all` processes
exactly ceil(n/b) batches, which are contiguous slices whose
concatenation is the whole list of preprocessed transcriptions, and it
returns the unchanged sequence names together with exactly one
probability per input sequence, in input order: the probability list is
the preprocessed transcription list mapped through the per-sequence
score. -/
theorem C6_extract_all_batching (tok : String → List ℕ) (pad : ℕ)
    (M : List ℕ → ℕ → ℕ → ℚ) (pooling : String) (fl : LstmFlags)
    (bpeTok : String → List String) (b : ℕ)
    (seq_names transcriptions : List String)
    (hlen : seq_names.length = transcriptions.length)
    (hne : transcriptions ≠ []) (hb : b ≠ 0)
    (hM : CausalModel M) (htok : ∀ s, 2 ≤ (tok s).length) :
    (codeBatches (transcriptions.map (preprocessing fl bpeTok))
        seq_names.length b).length = (seq_names.length + b - 1) / b ∧
    (codeBatches (transcriptions.map (preprocessing fl bpeTok))
        seq_names.length b).flatten =
      transcriptions.map (preprocessing fl bpeTok) ∧
    extract_all true tok pad M pooling fl bpeTok b seq_names transcriptions =
      .ok (seq_names,
        (transcriptions.map (preprocessing fl bpeTok)).map
          (fun s => seqScore M pooling (tok s))) := by
  have hn : seq_names.length =
      (transcriptions.map (preprocessing fl bpeTok)).length := by
    rw [List.length_map]; exact hlen
  refine ⟨?_, ?_, ?_⟩
  · rw [codeBatches, List.length_map, List.length_range,
      nBatches_eq_ceil b (Nat.pos_of_ne_zero hb) seq_names.length
        seq_names.length le_rfl]
  · rw [hn]
    exact codeBatches_flatten _ b hb
  · rw [extract_all_ok_shape tok pad M pooling fl bpeTok b seq_names
      transcriptions hne hb]
    have hmap : (codeBatches (transcriptions.map (preprocessing fl bpeTok))
        seq_names.length b).map
        (fun batch => (batch.map tok).map
          (rowScore M pad (maxLen (batch.map tok)) pooling)) =
        (codeBatches (transcriptions.map (preprocessing fl bpeTok))
          seq_names.length b).map
        (List.map (fun s => seqScore M pooling (tok s))) :=
      List.map_congr_left (fun batch _ =>
        batch_scores_seqScore tok pad M pooling batch hM htok)
    rw [hmap, ← List.map_flatten, hn, codeBatches_flatten _ b hb]

/-- C6 amended, at a concrete input: two sequences, batch size one, a
concrete causal model. -/
theorem C6_extract_all_batching_witness :
    (codeBatches ((["u", "w"] : List String).map
        (preprocessing ⟨false, false, false⟩ (fun _ => [])))
        (["f1", "f2"] : List String).length 1).length =
      ((["f1", "f2"] : List String).length + 1 - 1) / 1 ∧
    (codeBatches ((["u", "w"] : List String).map
        (preprocessing ⟨false, false, false⟩ (fun _ => [])))
        (["f1", "f2"] : List String).length 1).flatten =
      (["u", "w"] : List String).map
        (preprocessing ⟨false, false, false⟩ (fun _ => [])) ∧
    extract_all true (fun _ => [3, 4]) 9
      (fun r i _ => (((r.take (i + 1)).sum : ℕ) : ℚ)) "sum"
      ⟨false, false, false⟩ (fun _ => []) 1 ["f1", "f2"] ["u", "w"] =
      .ok (["f1", "f2"],
        ((["u", "w"] : List String).map
          (preprocessing ⟨false, false, false⟩ (fun _ => []))).map
          (fun s => seqScore (fun r i _ => (((r.take (i + 1)).sum : ℕ) : ℚ))
            "sum" ((fun (_ : String) => [3, 4]) s))) :=
  C6_extract_all_batching (fun _ => [3, 4]) 9
    (fun r i _ => (((r.take (i + 1)).sum : ℕ) : ℚ)) "sum"
    ⟨false, false, false⟩ (fun _ => []) 1 ["f1", "f2"] ["u", "w"]
    rfl (by simp) (by decide)
    (fun r r' i v h => congrArg (fun l : List ℕ => ((l.sum : ℕ) : ℚ)) h)
    (fun _ => Nat.le.refl)

/-- One row of the probing dataset in `probe_babyberta.py`: the row's
attention mask and, abstractly, the per-position losses
`CrossEntropyLoss(reduction='none')(logits.permute(0, 2, 1), input_ids)`
that the opaque `RobertaForMaskedLM` model's logits yield against the
row's input ids. -/
structure ProbingRow where
  attention_mask : List Bool
  loss : List ℚ
  deriving DecidableEq, Repr

/-- Embeds the per-row reduction of `calc_cross_entropies`
(`probe_babyberta.py`, lines 88-91):
`loss_i[np.where(row_mask)[0]].mean()`, the mean of the loss entries at
the positions selected by the attention mask. -/
def rowCE (r : ProbingRow) : ℚ :=
  let sel := ((r.loss.zip r.attention_mask).filter (fun p => p.2)).map Prod.fst
  sel.sum / (sel.length : ℚ)

/-- Modelled from the spec: `make_sequences(stimuli, num_sentences_per_input=1)`
and `DataSet.for_probing(stimuli, tokenizer)` live in
`utils/babyberta/dataset.py`, which is part of this repository but not
under `src/`.  Per the spec's batch-scoring-loop description ("tokenize
text, run it through a pretrained model, and aggregate token-level ...
cross-entropies into a single scalar per input sequence") they produce,
in input order, one tokenized row per stimulus, which the opaque model
turns into the per-position losses of that row; `enc` abstracts this
stimulus-to-row pipeline. -/
def probingRows (enc : String → ProbingRow) (stimuli : List String) :
    List ProbingRow := stimuli.map enc

/-- Embeds `calc_cross_entropies` (`probe_babyberta.py`, lines 66-97):
one masked mean loss per row, in order, with the final
`RuntimeError('Did not compute cross entropies.')` when none were
computed. -/
def calc_cross_entropies (rows : List ProbingRow) : Except String (List ℚ) :=
  let ces := rows.map rowCE
  if ces.isEmpty then .error "RuntimeError: Did not compute cross entropies."
  else .ok ces

/-- One row of the dataframe returned by `babyberta_probing`
(`probe_babyberta.py`, lines 50-52); the derived `is_model_right` column
is recomputed where needed. -/
structure OutRow where
  real : String
  fake : String
  real_pp : ℚ
  fake_pp : ℚ
  deriving DecidableEq, Repr

/-- Embeds `out.groupby('real')['is_model_right'].mean()` at key `k`:
the mean, over the rows whose `real` equals `k`, of the indicator of
`real_pp > fake_pp`. -/
def groupMean (out : List OutRow) (k : String) : ℚ :=
  let grp := (out.filter (fun r => r.real == k)).map
    (fun r => if r.fake_pp < r.real_pp then (1 : ℚ) else 0)
  grp.sum / (grp.length : ℚ)

/-- Embeds `acc_score = (out.groupby('real')['is_model_right'].mean()).sum() / len(out)`
(`probe_babyberta.py`, line 59); the groupby keys are the distinct
`real` values. -/
def acc_score (out : List OutRow) : ℚ :=
  (((out.map (fun r => r.real)).dedup).map (groupMean out)).sum /
    (out.length : ℚ)

/-- Embeds `babyberta_probing` (`probe_babyberta.py`, lines 32-64).  The
dataframe is the list of its (real, fake) rows; `fillna('nan')` is the
identity on the string-valued column embedded here.  Real and fake
columns are truncated to 50, concatenated, scored, negated; `real_pp`
takes the first block of pseudo-probabilities and `fake_pp` the last
(`cross_entropies[-len(fake_stimuli):]`); the `assert` on the lengths
always holds. -/
def babyberta_probing (enc : String → ProbingRow)
    (data : List (String × String)) : Except String (List OutRow × ℚ) :=
  let real_stimuli := (data.map Prod.fst).take 50
  let fake_stimuli := (data.map Prod.snd).take 50
  let stimuli := real_stimuli ++ fake_stimuli
  match calc_cross_entropies (probingRows enc stimuli) with
  | .error e => .error e
  | .ok ces =>
    let pps := ces.map (fun c => -c)
    let real_pp := pps.take real_stimuli.length
    let fake_pp := pps.drop (pps.length - fake_stimuli.length)
    let out := List.zipWith (fun rf pp => OutRow.mk rf.1 rf.2 pp.1 pp.2)
      (real_stimuli.zip fake_stimuli) (real_pp.zip fake_pp)
    .ok (out, acc_score out)

/-- Claim-side masked mean of a probing row: the per-position
cross-entropies averaged over exactly the positions whose attention mask
is 1. -/
def maskedMeanSpec (r : ProbingRow) : ℚ :=
  let idxs := (List.range r.loss.length).filter
    (fun t => r.attention_mask.getD t false)
  ((idxs.map (fun t => r.loss.getD t 0)).sum) / (idxs.length : ℚ)

lemma sel_eq_idx : ∀ (ls : List ℚ) (ms : List Bool), ls.length = ms.length →
    ((ls.zip ms).filter (fun p => p.2)).map Prod.fst =
      ((List.range ls.length).filter (fun t => ms.getD t false)).map
        (fun t => ls.getD t 0)
  | [], ms, _ => by simp
  | l :: ls, [], h => by simp at h
  | l :: ls, m :: ms, h => by
    have h' : ls.length = ms.length := by simpa using h
    have ih := sel_eq_idx ls ms h'
    simp only [List.length_cons, List.range_succ_eq_map, List.zip_cons_cons]
    rw [List.filter_cons, List.filter_cons]
    simp only [List.getD_cons_zero]
    rw [List.filter_map]
    have hcomp : ((fun t => (m :: ms).getD t false) ∘ Nat.succ) =
        (fun t => ms.getD t false) := by
      funext t
      simp [Function.comp_apply, List.getD_cons_succ]
    rw [hcomp]
    cases m with
    | false =>
      simp only [Bool.false_eq_true, if_false, List.map_map]
      rw [ih]
      refine List.map_congr_left (fun t _ => ?_)
      simp [Function.comp_apply, List.getD_cons_succ]
    | true =>
      simp only [if_true, List.map_cons, List.map_map, List.getD_cons_zero]
      rw [ih]
      refine congrArg (l :: ·) (List.map_congr_left (fun t _ => ?_))
      simp [Function.comp_apply, List.getD_cons_succ]

lemma rowCE_eq_maskedMeanSpec (r : ProbingRow)
    (hlen : r.loss.length = r.attention_mask.length) :
    rowCE r = maskedMeanSpec r := by
  unfold rowCE maskedMeanSpec
  rw [sel_eq_idx r.loss r.attention_mask hlen]
  simp [List.length_map]

/-- The dataframe `babyberta_probing` builds on success, written out
explicitly: truncated real and fake columns paired with their negated
masked-mean cross-entropies. -/
def outOf (enc : String → ProbingRow) (data : List (String × String)) :
    List OutRow :=
  List.zipWith (fun rf pp => OutRow.mk rf.1 rf.2 pp.1 pp.2)
    (((data.map Prod.fst).take 50).zip ((data.map Prod.snd).take 50))
    ((((data.map Prod.fst).take 50).map (fun s => -(rowCE (enc s)))).zip
      (((data.map Prod.snd).take 50).map (fun s => -(rowCE (enc s)))))

lemma babyberta_ok_shape (enc : String → ProbingRow)
    (data : List (String × String)) (hne : data ≠ []) :
    babyberta_probing enc data = .ok (outOf enc data, acc_score (outOf enc data)) := by
  have hlenfst : ((data.map Prod.fst).take 50) ≠ [] := by
    cases data with
    | nil => exact absurd rfl hne
    | cons a l => simp
  have hstim : ((data.map Prod.fst).take 50) ++ ((data.map Prod.snd).take 50) ≠ [] := by
    intro hcontra
    exact hlenfst (List.append_eq_nil.mp hcontra).1
  have hcalc : calc_cross_entropies (probingRows enc
      (((data.map Prod.fst).take 50) ++ ((data.map Prod.snd).take 50))) =
      .ok ((((data.map Prod.fst).take 50) ++ ((data.map Prod.snd).take 50)).map
        (fun s => rowCE (enc s))) := by
    unfold calc_cross_entropies probingRows
    rw [List.map_map]
    have hie : ((((data.map Prod.fst).take 50) ++ ((data.map Prod.snd).take 50)).map
        (rowCE ∘ enc)).isEmpty = false := by
      cases h : ((data.map Prod.fst).take 50) ++ ((data.map Prod.snd).take 50) with
      | nil => exact absurd h hstim
      | cons a l => rfl
    simp only [hie, Bool.false_eq_true, if_false]
    rfl
  simp only [babyberta_probing, hcalc]
  have hmapneg : ((((data.map Prod.fst).take 50) ++
      ((data.map Prod.snd).take 50)).map (fun s => rowCE (enc s))).map
      (fun c => -c) =
      (((data.map Prod.fst).take 50).map (fun s => -(rowCE (enc s)))) ++
      (((data.map Prod.snd).take 50).map (fun s => -(rowCE (enc s)))) := by
    rw [List.map_map, List.map_append]
    rfl
  rw [hmapneg]
  have htake : ((((data.map Prod.fst).take 50).map (fun s => -(rowCE (enc s)))) ++
      (((data.map Prod.snd).take 50).map (fun s => -(rowCE (enc s))))).take
        ((data.map Prod.fst).take 50).length =
      (((data.map Prod.fst).take 50).map (fun s => -(rowCE (enc s)))) := by
    rw [← List.length_map ((data.map Prod.fst).take 50) (fun s => -(rowCE (enc s)))]
    exact List.take_left _ _
  have hlensum : ((((data.map Prod.fst).take 50).map (fun s => -(rowCE (enc s)))) ++
      (((data.map Prod.snd).take 50).map (fun s => -(rowCE (enc s))))).length -
      ((data.map Prod.snd).take 50).length =
      (((data.map Prod.fst).take 50).map (fun s => -(rowCE (enc s)))).length := by
    rw [List.length_append, List.length_map, List.length_map]
    omega
  have hdrop : ((((data.map Prod.fst).take 50).map (fun s => -(rowCE (enc s)))) ++
      (((data.map Prod.snd).take 50).map (fun s => -(rowCE (enc s))))).drop
        (((((data.map Prod.fst).take 50).map (fun s => -(rowCE (enc s)))) ++
          (((data.map Prod.snd).take 50).map (fun s => -(rowCE (enc s))))).length -
          ((data.map Prod.snd).take 50).length) =
      (((data.map Prod.snd).take 50).map (fun s => -(rowCE (enc s)))) := by
    rw [hlensum]
    exact List.drop_left _ _
  rw [htake, hdrop]
  rfl

lemma zipWith_rows_spec :
    ∀ (as bs : List String) (cs ds : List ℚ),
      as.length = bs.length → as.length = cs.length → as.length = ds.length →
      (List.zipWith (fun rf pp => OutRow.mk rf.1 rf.2 pp.1 pp.2)
          (as.zip bs) (cs.zip ds)).length = as.length ∧
      (List.zipWith (fun rf pp => OutRow.mk rf.1 rf.2 pp.1 pp.2)
          (as.zip bs) (cs.zip ds)).map (fun r => r.real) = as ∧
      (List.zipWith (fun rf pp => OutRow.mk rf.1 rf.2 pp.1 pp.2)
          (as.zip bs) (cs.zip ds)).map (fun r => r.fake) = bs ∧
      (List.zipWith (fun rf pp => OutRow.mk rf.1 rf.2 pp.1 pp.2)
          (as.zip bs) (cs.zip ds)).map (fun r => r.real_pp) = cs ∧
      (List.zipWith (fun rf pp => OutRow.mk rf.1 rf.2 pp.1 pp.2)
          (as.zip bs) (cs.zip ds)).map (fun r => r.fake_pp) = ds := by
  intro as
  induction as with
  | nil =>
    intro bs cs ds h1 h2 h3
    rw [List.length_eq_zero.mp h1.symm, List.length_eq_zero.mp h2.symm,
      List.length_eq_zero.mp h3.symm]
    simp
  | cons a as ih =>
    intro bs cs ds h1 h2 h3
    cases bs with
    | nil => simp at h1
    | cons b bs =>
      cases cs with
      | nil => simp at h2
      | cons c cs =>
        cases ds with
        | nil => simp at h3
        | cons d ds =>
          have h1' : as.length = bs.length := by simpa using h1
          have h2' : as.length = cs.length := by simpa using h2
          have h3' : as.length = ds.length := by simpa using h3
          obtain ⟨e1, e2, e3, e4, e5⟩ := ih bs cs ds h1' h2' h3'
          simp only [List.zip_cons_cons, List.zipWith_cons_cons,
            List.length_cons, List.map_cons]
          exact ⟨by rw [e1], by rw [e2], by rw [e3], by rw [e4], by rw [e5]⟩

lemma groupMean_cons_self (r : OutRow) (rest : List OutRow)
    (hnot : r.real ∉ rest.map (fun x => x.real)) :
    groupMean (r :: rest) r.real =
      (if r.fake_pp < r.real_pp then (1 : ℚ) else 0) := by
  unfold groupMean
  have hfilt : rest.filter (fun x => x.real == r.real) = [] := by
    rw [List.filter_eq_nil_iff]
    intro x hx
    have : x.real ≠ r.real := by
      intro he
      exact hnot (he ▸ List.mem_map_of_mem (fun y => y.real) hx)
    simpa using this
  rw [List.filter_cons]
  simp only [beq_self_eq_true, if_true, hfilt, List.map_cons, List.map_nil,
    List.sum_cons, List.sum_nil, List.length_cons, List.length_nil]
  norm_num

lemma groupMean_cons_other (r : OutRow) (rest : List OutRow) (k : String)
    (hk : k ≠ r.real) : groupMean (r :: rest) k = groupMean rest k := by
  unfold groupMean
  rw [List.filter_cons]
  have : (r.real == k) = false := by simpa using fun he => hk he.symm
  simp only [this, Bool.false_eq_true, if_false]

lemma groupMean_sum_nodup :
    ∀ out : List OutRow, (out.map (fun r => r.real)).Nodup →
      (((out.map (fun r => r.real)).dedup).map (groupMean out)).sum =
        ((out.filter (fun r => decide (r.fake_pp < r.real_pp))).length : ℚ)
  | [], _ => by simp
  | r :: rest, h => by
    have hnot : r.real ∉ rest.map (fun x => x.real) := by
      have := h
      rw [List.map_cons, List.nodup_cons] at this
      exact this.1
    have hrest : (rest.map (fun x => x.real)).Nodup := by
      have := h
      rw [List.map_cons, List.nodup_cons] at this
      exact this.2
    have ih := groupMean_sum_nodup rest hrest
    rw [List.Nodup.dedup h]
    simp only [List.map_cons, List.sum_cons]
    have hothers : (rest.map (fun x => x.real)).map (groupMean (r :: rest)) =
        (rest.map (fun x => x.real)).map (groupMean rest) := by
      refine List.map_congr_left (fun k hk => ?_)
      refine groupMean_cons_other r rest k (fun he => hnot (he ▸ hk))
    rw [hothers, groupMean_cons_self r rest hnot]
    rw [List.Nodup.dedup hrest] at ih
    rw [ih, List.filter_cons]
    cases hc : decide (r.fake_pp < r.real_pp) with
    | true =>
      rw [if_pos (of_decide_eq_true hc), if_pos rfl, List.length_cons]
      push_cast
      ring
    | false =>
      rw [if_neg (of_decide_eq_false hc), if_neg Bool.false_ne_true]
      ring

lemma acc_score_nodup (out : List OutRow)
    (h : (out.map (fun r => r.real)).Nodup) :
    acc_score out =
      ((out.filter (fun r => decide (r.fake_pp < r.real_pp))).length : ℚ) /
        (out.length : ℚ) := by
  unfold acc_score
  rw [groupMean_sum_nodup out h]

lemma outOf_spec (enc : String → ProbingRow) (data : List (String × String)) :
    (outOf enc data).length = ((data.map Prod.fst).take 50).length ∧
    (outOf enc data).map (fun r => r.real) = (data.map Prod.fst).take 50 ∧
    (outOf enc data).map (fun r => r.fake) = (data.map Prod.snd).take 50 ∧
    (outOf enc data).map (fun r => r.real_pp) =
      ((data.map Prod.fst).take 50).map (fun s => -(rowCE (enc s))) ∧
    (outOf enc data).map (fun r => r.fake_pp) =
      ((data.map Prod.snd).take 50).map (fun s => -(rowCE (enc s))) := by
  have hl : ((data.map Prod.fst).take 50).length =
      ((data.map Prod.snd).take 50).length := by
    rw [List.length_take, List.length_take, List.length_map, List.length_map]
  exact zipWith_rows_spec _ _ _ _ hl
    (by rw [List.length_map]) (by rw [List.length_map]; exact hl)

/-- C1: when the (at most 50 retained) real stimuli are pairwise
distinct, the accuracy returned by `babyberta_probing` is the fraction of
real/fake pairs whose real pseudo-probability strictly exceeds the fake
one. -/
theorem C1_acc_score_is_pair_fraction (enc : String → ProbingRow)
    (data : List (String × String)) (hne : data ≠ [])
    (hnodup : ((data.map Prod.fst).take 50).Nodup) :
    isError (babyberta_probing enc data) = false ∧
    (okD ([], 0) (babyberta_probing enc data)).2 =
      (((okD ([], 0) (babyberta_probing enc data)).1.filter
        (fun r => decide (r.fake_pp < r.real_pp))).length : ℚ) /
      (((okD ([], 0) (babyberta_probing enc data)).1.length : ℚ)) := by
  rw [babyberta_ok_shape enc data hne]
  refine ⟨rfl, ?_⟩
  simp only [okD]
  obtain ⟨l1, l2, l3, l4, l5⟩ := outOf_spec enc data
  refine acc_score_nodup (outOf enc data) ?_
  rw [l2]
  exact hnodup

/-- C1, at a concrete input: a single real/fake pair. -/
theorem C1_acc_score_is_pair_fraction_witness :
    isError (babyberta_probing (fun _ => ProbingRow.mk [true] [1])
      [("a", "b")]) = false ∧
    (okD ([], 0) (babyberta_probing (fun _ => ProbingRow.mk [true] [1])
      [("a", "b")])).2 =
      (((okD ([], 0) (babyberta_probing (fun _ => ProbingRow.mk [true] [1])
        [("a", "b")])).1.filter
        (fun r => decide (r.fake_pp < r.real_pp))).length : ℚ) /
      (((okD ([], 0) (babyberta_probing (fun _ => ProbingRow.mk [true] [1])
        [("a", "b")])).1.length : ℚ)) :=
  C1_acc_score_is_pair_fraction (fun _ => ProbingRow.mk [true] [1])
    [("a", "b")] (by simp) (by simp)

/-- C5: each pseudo-probability produced by `babyberta_probing` is the
negated mean of the per-position cross-entropies of the model's logits
against the input ids, averaged over exactly the positions whose
attention mask is 1. -/
theorem C5_pp_is_neg_masked_mean_ce (enc : String → ProbingRow)
    (data : List (String × String)) (hne : data ≠ [])
    (hlen : ∀ s, (enc s).loss.length = (enc s).attention_mask.length) :
    isError (babyberta_probing enc data) = false ∧
    (okD ([], 0) (babyberta_probing enc data)).1.map (fun r => r.real_pp) =
      ((data.map Prod.fst).take 50).map (fun s => -(maskedMeanSpec (enc s))) ∧
    (okD ([], 0) (babyberta_probing enc data)).1.map (fun r => r.fake_pp) =
      ((data.map Prod.snd).take 50).map (fun s => -(maskedMeanSpec (enc s))) := by
  rw [babyberta_ok_shape enc data hne]
  obtain ⟨l1, l2, l3, l4, l5⟩ := outOf_spec enc data
  refine ⟨rfl, ?_, ?_⟩
  · simp only [okD]
    rw [l4]
    exact List.map_congr_left
      (fun s _ => by rw [rowCE_eq_maskedMeanSpec (enc s) (hlen s)])
  · simp only [okD]
    rw [l5]
    exact List.map_congr_left
      (fun s _ => by rw [rowCE_eq_maskedMeanSpec (enc s) (hlen s)])

/-- C5, at a concrete input: one pair, a one-position mask. -/
theorem C5_pp_is_neg_masked_mean_ce_witness :
    isError (babyberta_probing (fun _ => ProbingRow.mk [true] [1])
      [("a", "b")]) = false ∧
    (okD ([], 0) (babyberta_probing (fun _ => ProbingRow.mk [true] [1])
      [("a", "b")])).1.map (fun r => r.real_pp) =
      (([("a", "b")].map Prod.fst).take 50).map
        (fun s => -(maskedMeanSpec ((fun (_ : String) => ProbingRow.mk [true] [1]) s))) ∧
    (okD ([], 0) (babyberta_probing (fun _ => ProbingRow.mk [true] [1])
      [("a", "b")])).1.map (fun r => r.fake_pp) =
      (([("a", "b")].map Prod.snd).take 50).map
        (fun s => -(maskedMeanSpec ((fun (_ : String) => ProbingRow.mk [true] [1]) s))) :=
  C5_pp_is_neg_masked_mean_ce (fun _ => ProbingRow.mk [true] [1])
    [("a", "b")] (by simp) (fun _ => rfl)

/-- C8: `babyberta_probing` scores only the first 50 real and 50 fake
stimuli; the returned dataframe has min(number of rows, 50) rows. -/
theorem C8_only_first_50_scored (enc : String → ProbingRow)
    (data : List (String × String)) (hne : data ≠ []) :
    isError (babyberta_probing enc data) = false ∧
    (okD ([], 0) (babyberta_probing enc data)).1.length =
      min data.length 50 := by
  rw [babyberta_ok_shape enc data hne]
  obtain ⟨l1, _, _, _, _⟩ := outOf_spec enc data
  refine ⟨rfl, ?_⟩
  simp only [okD]
  rw [l1, List.length_take, List.length_map, Nat.min_comm]

/-- C8, at a concrete input with 51 rows: only 50 are kept. -/
theorem C8_only_first_50_scored_witness :
    isError (babyberta_probing (fun _ => ProbingRow.mk [true] [1])
      (List.replicate 51 ("a", "b"))) = false ∧
    (okD ([], 0) (babyberta_probing (fun _ => ProbingRow.mk [true] [1])
      (List.replicate 51 ("a", "b")))).1.length =
      min (List.replicate 51 ("a", "b")).length 50 :=
  C8_only_first_50_scored (fun _ => ProbingRow.mk [true] [1])
    (List.replicate 51 ("a", "b")) (by simp)

lemma init_isError (is_file is_dir : FsPath → Bool) (model_path : FsPath)
    (dict_path : Option FsPath) (out_path : FsPath) (batch_size : ℕ)
    (pooling : String) :
    isError (probExtractorInit is_file is_dir model_path dict_path out_path
      batch_size pooling) =
      (!is_file model_path ||
        !is_dir (dict_path.getD (parentDir model_path ++ ["data-bin"]))) := by
  cases dict_path with
  | none =>
    cases hf : is_file model_path <;> cases hd : is_dir (parentDir model_path ++ ["data-bin"]) <;>
      simp [probExtractorInit, isError, hf, hd, Option.getD]
  | some d =>
    cases hf : is_file model_path <;> cases hd : is_dir d <;>
      simp [probExtractorInit, isError, hf, hd, Option.getD]

lemma extract_batch_isError (loaded : Bool) (tok : String → List ℕ) (pad : ℕ)
    (M : List ℕ → ℕ → ℕ → ℚ) (pooling : String) (batch : List String) :
    isError (extract_batch loaded tok pad M pooling batch) = !loaded := by
  cases loaded <;> rfl

lemma calc_cross_entropies_isError (rows : List ProbingRow) :
    isError (calc_cross_entropies rows) = rows.isEmpty := by
  cases rows <;> rfl

lemma extract_all_isError (tok : String → List ℕ) (pad : ℕ)
    (M : List ℕ → ℕ → ℕ → ℚ) (pooling : String) (fl : LstmFlags)
    (bpeTok : String → List String) (b : ℕ)
    (seq_names transcriptions : List String) :
    isError (extract_all true tok pad M pooling fl bpeTok b
      seq_names transcriptions) = (transcriptions.isEmpty || (b == 0)) := by
  cases transcriptions with
  | nil => rfl
  | cons t rest =>
    rcases Nat.eq_zero_or_pos b with rfl | hb
    · rfl
    · rw [extract_all_ok_shape tok pad M pooling fl bpeTok b seq_names
        (t :: rest) (by simp) (Nat.pos_iff_ne_zero.mp hb)]
      have : (b == 0) = false := by
        simpa using Nat.pos_iff_ne_zero.mp hb
      rw [this]
      rfl

lemma get_example_input_isError (example_input : Option String) :
    isError (get_example_input example_input) = example_input.isNone := by
  cases example_input <;> rfl

/-- C4, as stated, is false: `calc_cross_entropies` raises
`RuntimeError('Did not compute cross entropies.')` on an empty dataset,
an error that is neither a missing file nor unset model state. -/
theorem C4_cex_calc_cross_entropies_raises :
    isError (calc_cross_entropies []) = true := rfl

/-- C4 amended: the constructor raises `ValueError` exactly when
`model_path` is not a file or the (possibly derived) `dict_path` is not a
directory; `extract_batch` raises `ValueError` exactly when the model is
not loaded; in addition, `calc_cross_entropies` raises `RuntimeError`
exactly when its dataset is empty, `extract_all` (on a loaded model)
fails exactly when the transcription list is empty (`IndexError`) or the
batch size is zero (`ZeroDivisionError`), and `get_example_input` raises
`ValueError` exactly when no example input has been set. -/
theorem C4_error_conditions :
    (∀ (is_file is_dir : FsPath → Bool) (model_path : FsPath)
      (dict_path : Option FsPath) (out_path : FsPath) (batch_size : ℕ)
      (pooling : String),
      isError (probExtractorInit is_file is_dir model_path dict_path
        out_path batch_size pooling) =
        (!is_file model_path ||
          !is_dir (dict_path.getD (parentDir model_path ++ ["data-bin"])))) ∧
    (∀ (loaded : Bool) (tok : String → List ℕ) (pad : ℕ)
      (M : List ℕ → ℕ → ℕ → ℚ) (pooling : String) (batch : List String),
      isError (extract_batch loaded tok pad M pooling batch) = !loaded) ∧
    (∀ rows : List ProbingRow,
      isError (calc_cross_entropies rows) = rows.isEmpty) ∧
    (∀ (tok : String → List ℕ) (pad : ℕ) (M : List ℕ → ℕ → ℕ → ℚ)
      (pooling : String) (fl : LstmFlags) (bpeTok : String → List String)
      (b : ℕ) (seq_names transcriptions : List String),
      isError (extract_all true tok pad M pooling fl bpeTok b
        seq_names transcriptions) = (transcriptions.isEmpty || (b == 0))) ∧
    (∀ example_input : Option String,
      isError (get_example_input example_input) = example_input.isNone) :=
  ⟨init_isError, extract_batch_isError, calc_cross_entropies_isError,
    extract_all_isError, get_example_input_isError⟩

/-- C3, at a concrete input: one sequence of tokenized length 3. -/
theorem C3_extract_batch_row_scores_witness :
    extract_batch true (fun _ => [1, 2, 3]) 0
      (fun _ i v => (i : ℚ) + v) "sum" ["a"] =
      Except.ok (((["a"] : List String).map (fun _ => [1, 2, 3])).map
        (rowScoreSpec (fun _ i v => (i : ℚ) + v) 0
          (maxLen ((["a"] : List String).map (fun _ => [1, 2, 3]))) "sum")) :=
  C3_extract_batch_row_scores (fun _ => [1, 2, 3]) 0
    (fun _ i v => (i : ℚ) + v) "sum" ["a"] (fun _ _ => Nat.le_succ 2)
